import Mathlib

/-!
Verification development for the timingsrc cue-sequencer repository.

The JavaScript sources are shallowly embedded:
* `src/v2.1/util/util.js` and the first unnamed source file: `map_difference`
  and `map_intersect` over JS `Map`s, modelled as association lists.
* the second unnamed source file: the `BinarySearch` sorted index
  (`binaryIndexOf`, `isFound`, `update` with its splice and sort strategies),
  with JS numbers modelled as `WithTop ℚ` so that the `Infinity` sentinel of
  the sort strategy is representable.
* `src/v3/sequencing/doublesequencer.js`: the `SingleSequencer` reconciliation
  callbacks (`_onTimingCallback`, `_onScheduleCallback`,
  `_get_events_from_axis_events`, `_get_events_from_axis_lookup`) and the
  `DoubleSequencer` readiness latch.

The repository files `axis.js`, `interval.js`, `endpoint.js` and
`motionutils.js` are not present under src/; the small pieces of them the
sequencer callbacks use (point lookup on the axis, interval coverage of a
position, the per-key `Delta`, the `MotionDelta` classification and the
endpoint 4-tuple) are modelled from the spec, as marked in doc comments.
-/

/-! ## Definitions -/

/-- An entry of a JS `Map` with `Nat` keys, modelled as a key/value pair;
a `Map` is an association list in insertion order. -/
abbrev JsMap (V : Type) : Type := List (Nat × V)

/-- `m.has(k)` on a JS `Map` modelled as an association list. -/
def hasKey {V : Type} (m : JsMap V) (k : Nat) : Bool :=
  m.any (fun kv => kv.1 == k)

/-- `m.get(k)` on a JS `Map`: the value of the (unique) entry for `k`. -/
def mapGet {V : Type} (m : JsMap V) (k : Nat) : Option V :=
  match m.find? (fun kv => kv.1 == k) with
  | some kv => some kv.2
  | none => none

/-- `m.set(k, v)` on a JS `Map`: replace in place if present, else append. -/
def mapSet {V : Type} (m : JsMap V) (k : Nat) (v : V) : JsMap V :=
  if hasKey m k then
    m.map (fun kv => if kv.1 = k then (k, v) else kv)
  else
    m ++ [(k, v)]

/-- `m.delete(k)` on a JS `Map`: drop the entry for `k`. -/
def mapDelete {V : Type} (m : JsMap V) (k : Nat) : JsMap V :=
  m.filter (fun kv => kv.1 ≠ k)

/-- `map_difference(a, b)` from util.js: the entries of `a` whose key is not
in `b`, with the source's early returns for empty inputs. -/
def map_difference {V : Type} (a b : JsMap V) : JsMap V :=
  if a.length = 0 then []
  else if b.length = 0 then a
  else a.filter (fun kv => ¬ hasKey b kv.1)

/-- `map_intersect(a, b)` from util.js: the pair is swapped so that the first
component is the smaller map, whose entries with a key in the other map are
kept. -/
def map_intersect {V : Type} (a b : JsMap V) : JsMap V :=
  let p := if a.length ≤ b.length then (a, b) else (b, a)
  if p.1.length = 0 then []
  else p.1.filter (fun kv => hasKey p.2 kv.1)

/-- The element type of the sorted index: a JS number, with `⊤` standing for
the `Infinity` sentinel used by the sort strategy of `update`. -/
abbrev JsNum : Type := WithTop ℚ

/-- The loop of `BinarySearch.prototype.binaryIndexOf`: `minIndex` and
`maxIndex` bracket the search range, `(minIndex + maxIndex) / 2 | 0` is the
probe, and on failure the bitwise complement `~maxIndex = -(maxIndex + 1)` is
returned. -/
def binaryIndexOfLoop (arr : List JsNum) (x : JsNum) (minIndex : Nat) (maxIndex : Int) : Int :=
  if h : (minIndex : Int) ≤ maxIndex then
    let currentIndex : Nat := (minIndex + maxIndex.toNat) / 2
    let currentElement := arr.getD currentIndex 0
    if currentElement < x then
      binaryIndexOfLoop arr x (currentIndex + 1) maxIndex
    else if currentElement > x then
      binaryIndexOfLoop arr x minIndex ((currentIndex : Int) - 1)
    else
      (currentIndex : Int)
  else
    -(maxIndex + 1)
termination_by (maxIndex + 1 - (minIndex : Int)).toNat
decreasing_by
  · omega
  · omega

/-- `BinarySearch.prototype.binaryIndexOf`. -/
def binaryIndexOf (arr : List JsNum) (x : JsNum) : Int :=
  binaryIndexOfLoop arr x 0 ((arr.length : Int) - 1)

/-- `BinarySearch.prototype.isFound`: resolves the ambiguity of a returned
index `0`. -/
def isFound (arr : List JsNum) (index : Int) (x : JsNum) : Bool :=
  if 0 < index then true
  else if index = 0 ∧ 0 < arr.length ∧ arr.getD 0 0 = x then true
  else false

/-- `BinarySearch.prototype.indexOf`: index of `x`, or `-1`. -/
def bsIndexOf (arr : List JsNum) (x : JsNum) : Int :=
  let index := binaryIndexOf arr x
  if isFound arr index x then index else -1

/-- `BinarySearch.prototype.indexOfElements`: the indexes of those elements
that are present. -/
def indexOfElements (arr : List JsNum) (elements : List JsNum) : List Int :=
  elements.filterMap (fun x =>
    let index := bsIndexOf arr x
    if index > -1 then some index else none)

/-- JS `array.splice(start, deleteCount)` restricted to deletion: a negative
`start` counts from the end (clamped at 0). -/
def jsSpliceDelete {α : Type} (arr : List α) (start : Int) (deleteCount : Nat) : List α :=
  let s : Nat := if start < 0 then ((arr.length : Int) + start).toNat
                 else min start.toNat arr.length
  arr.take s ++ arr.drop (s + deleteCount)

/-- JS `array.splice(start, 0, x)`: insertion at `start` (clamped to the
array length). -/
def jsSpliceInsert {α : Type} (arr : List α) (start : Nat) (x : α) : List α :=
  arr.take start ++ x :: arr.drop start

/-- The iteration order of a JS `Set` built from a list: first occurrences,
in order; used by `BinarySearch.prototype._unique`. -/
def jsSetDedupAux {α : Type} [DecidableEq α] (seen : List α) : List α → List α
  | [] => []
  | x :: xs =>
    if x ∈ seen then jsSetDedupAux seen xs
    else x :: jsSetDedupAux (x :: seen) xs

/-- `BinarySearch.prototype._unique`: `[...new Set(A)]`. -/
def jsSetDedup {α : Type} [DecidableEq α] (l : List α) : List α :=
  jsSetDedupAux [] l

/-- `array.indexOf(x)` of JS: first index, or `-1`. -/
def jsIndexOf {α : Type} [DecidableEq α] (arr : List α) (x : α) : Int :=
  match arr.findIdx? (fun a => a = x) with
  | some n => (n : Int)
  | none => -1

/-- `BinarySearch.prototype._update_splice`: locate-and-splice removal in
backwards index order, then per-element located insertion of the elements not
already present. -/
def update_splice (arr : List JsNum) (to_remove to_insert : List JsNum) : List JsNum :=
  let arr1 :=
    if 0 < arr.length then
      let indexes := (indexOfElements arr to_remove).insertionSort (· ≤ ·)
      indexes.reverse.foldl (fun a i => jsSpliceDelete a i 1) arr
    else arr
  to_insert.foldl (fun a x =>
    let index := binaryIndexOf a x
    if isFound a index x then a else jsSpliceInsert a index.natAbs x) arr1

/-- `BinarySearch.prototype._update_sort`: flag removed elements with the
`Infinity` sentinel, concat the insertions, sort, splice from the first
`Infinity` (the source has no guard for `indexOf` returning `-1`), and
deduplicate. -/
def update_sort (arr : List JsNum) (to_remove to_insert : List JsNum) : List JsNum :=
  let arr1 :=
    if 0 < arr.length then
      (indexOfElements arr to_remove).foldl (fun a i => a.set i.toNat ⊤) arr
    else arr
  let arr2 := (arr1 ++ to_insert).insertionSort (· ≤ ·)
  let index := jsIndexOf arr2 (⊤ : JsNum)
  let arr3 := jsSpliceDelete arr2 index arr2.length
  jsSetDedup arr3

/-- The strategy selector `resolve_approach`. -/
inductive Approach : Type
  | splice : Approach
  | sort : Approach
deriving DecidableEq

/-- `resolve_approach(arrayLength, batchLength)`. -/
def resolve_approach (arrayLength batchLength : Nat) : Approach :=
  if arrayLength = 0 then Approach.sort
  else if batchLength ≤ 100 then Approach.splice
  else Approach.sort

/-- `BinarySearch.prototype.update`: no-op on an empty batch, otherwise
dispatch on the selected strategy. -/
def bsUpdate (arr : List JsNum) (to_remove to_insert : List JsNum) : List JsNum :=
  let size := to_remove.length + to_insert.length
  if size = 0 then arr
  else
    match resolve_approach arr.length size with
    | Approach.splice => update_splice arr to_remove to_insert
    | Approach.sort => update_sort arr to_remove to_insert

/-- The insertion index of `x` in a sorted array: the number of elements
strictly below `x`. -/
def insertionIdx (arr : List JsNum) (x : JsNum) : Nat :=
  arr.countP (fun a => decide (a < x))

/-- Modelled from the spec: the `Interval` record of interval.js, which is
not under src/. `{low, high, lowInclude, highInclude}` with `low ≤ high`. -/
structure JsInterval : Type where
  low : ℚ
  high : ℚ
  lowInclude : Bool
  highInclude : Bool
deriving DecidableEq, Repr

/-- Modelled from the spec: `interval.covers` / `covers_endpoint` of
interval.js (not under src/) applied to a position: the interval contains
the value, respecting endpoint inclusivity. -/
def covers (i : JsInterval) (p : ℚ) : Bool :=
  (decide (i.low < p) || (decide (p = i.low) && i.lowInclude)) &&
  (decide (p < i.high) || (decide (p = i.high) && i.highInclude))

/-- A cue of the Axis: `{key, interval, data}`; payload data is opaque and
modelled as an integer. -/
structure Cue : Type where
  key : Nat
  interval : JsInterval
  data : Int
deriving DecidableEq, Repr

/-- Modelled from the spec: `Axis.lookup` of axis.js (not under src/) on a
singular interval `[p, p]`: a point query returns the cues whose intervals
cover the point. -/
def axisLookupPoint (axis : List Cue) (p : ℚ) : List Cue :=
  axis.filter (fun c => covers c.interval p)

/-- A `{key, new, old}` record of the sequencer's `change` event stream. -/
structure SeqEvent : Type where
  key : Nat
  new : Option Cue
  old : Option Cue
deriving DecidableEq, Repr

/-- Modelled from the spec: one alternative of the per-key `Delta` of
axis.js (not under src/): `NOOP`, `CHANGE`, `INSERT` or `DELETE`. -/
inductive DeltaKind : Type
  | NOOP : DeltaKind
  | CHANGE : DeltaKind
  | INSERT : DeltaKind
  | DELETE : DeltaKind
deriving DecidableEq, Repr

/-- Modelled from the spec: the per-key `Delta` of an Axis `eventMap` item,
reporting separately whether the interval and the payload changed. -/
structure DeltaRec : Type where
  interval : DeltaKind
  data : DeltaKind
deriving DecidableEq, Repr

/-- An item of an Axis `eventMap`: `{key, new, old, delta}`. -/
structure EventItem : Type where
  key : Nat
  new : Option Cue
  old : Option Cue
  delta : DeltaRec
deriving DecidableEq, Repr

/-- `isNoop(delta)` from doublesequencer.js: both the interval delta and the
data delta are `NOOP`. -/
def isNoop (d : DeltaRec) : Bool :=
  decide (d.interval = DeltaKind.NOOP) && decide (d.data = DeltaKind.NOOP)

/-- Modelled from the spec: the `posDelta` axis of `MotionDelta`
(motionutils.js is not under src/). -/
inductive PosDelta : Type
  | NOOP : PosDelta
  | CHANGE : PosDelta
deriving DecidableEq, Repr

/-- Modelled from the spec: the `moveDelta` axis of `MotionDelta`. -/
inductive MoveDelta : Type
  | NOOP : MoveDelta
  | START : MoveDelta
  | STOP : MoveDelta
  | CHANGE : MoveDelta
deriving DecidableEq, Repr

/-- Modelled from the spec: a computed `MotionDelta`, classifying a vector
transition along the position axis and the movement axis independently. -/
structure MotionDeltaRec : Type where
  posDelta : PosDelta
  moveDelta : MoveDelta
deriving DecidableEq, Repr

/-- The reconciliation remainder of `SingleSequencer._onTimingCallback`, the
code below the vector-resolution step: given the axis content, the current
`activeCues`, the computed `MotionDelta` and the new position, it returns
the new `activeCues` map and the list of emitted events. If
`posDelta == CHANGE || moveDelta == STOP`, the active set is recomputed from
a point lookup at the new position and exit then enter events are pushed;
otherwise nothing changes (the schedule reset does not touch `activeCues`).
In the source this code is unreachable: the vector resolution above it
throws (see `onTimingCallbackRun`); this remainder is what runs under the
evidently intended `this._to` reading of the method's bare `to`. -/
def onTimingCallback (axis : List Cue) (active : JsMap Cue)
    (delta : MotionDeltaRec) (pos : ℚ) : JsMap Cue × List SeqEvent :=
  if delta.posDelta = PosDelta.CHANGE ∨ delta.moveDelta = MoveDelta.STOP then
    let activeCues := (axisLookupPoint axis pos).map (fun c => (c.key, c))
    let exitCues := map_difference active activeCues
    let enterCues := map_difference activeCues active
    (activeCues,
      exitCues.map (fun kc => { key := kc.2.key, new := none, old := some kc.2 }) ++
      enterCues.map (fun kc => { key := kc.2.key, new := some kc.2, old := none }))
  else
    (active, [])

/-- Modelled from the spec: a motion vector
`{position, velocity, acceleration, timestamp}` (motionutils.js is not under
src/). -/
structure MotionVector : Type where
  position : ℚ
  velocity : ℚ
  acceleration : ℚ
  timestamp : ℚ
deriving DecidableEq, Repr

/-- Modelled from the spec: `calculateVector(V, t)` evaluates position
`p + v·Δ + ½·a·Δ²` and velocity `v + a·Δ` with `Δ = t − timestamp` and
re-anchors the vector at `t`. -/
def calculateVector (v : MotionVector) (t : ℚ) : MotionVector :=
  let d := t - v.timestamp
  { position := v.position + v.velocity * d + v.acceleration / 2 * d * d,
    velocity := v.velocity + v.acceleration * d,
    acceleration := v.acceleration,
    timestamp := t }

/-- Modelled from the spec: a vector is moving iff `velocity ≠ 0` or
`acceleration ≠ 0`. -/
def isMoving (v : MotionVector) : Bool :=
  decide (v.velocity ≠ 0) || decide (v.acceleration ≠ 0)

/-- Modelled from the spec: `new MotionDelta(old, new)` classifies the
transition along two independent axes - `posDelta` reports a position
discontinuity at the shared timestamp, `moveDelta` the transition of the
moving state. -/
def motionDelta (oldv newv : MotionVector) : MotionDeltaRec :=
  let old2 := calculateVector oldv newv.timestamp
  { posDelta :=
      if old2.position = newv.position then PosDelta.NOOP else PosDelta.CHANGE,
    moveDelta :=
      match isMoving old2, isMoving newv with
      | false, false => MoveDelta.NOOP
      | false, true => MoveDelta.START
      | true, false => MoveDelta.STOP
      | true, true =>
        if old2.velocity = newv.velocity ∧ old2.acceleration = newv.acceleration then
          MoveDelta.NOOP
        else MoveDelta.CHANGE }

/-- Modelled from the spec: the slice of a timing object the vector
resolution of `_onTimingCallback` reads - `to.vector`, `to.old_vector` and
`to.clock.now()`. -/
structure TimingObj : Type where
  vector : MotionVector
  old_vector : MotionVector
  clockNow : ℚ
deriving DecidableEq, Repr

/-- The one JS error this embedding needs: the ReferenceError raised by
reading an identifier that no enclosing scope binds. -/
inductive JsError : Type
  | referenceErrorTo : JsError
deriving DecidableEq, Repr

/-- What the identifier `to` resolves to inside
`SingleSequencer._onTimingCallback`: the method's only parameter is `eInfo`,
neither the method body nor the module body binds `to` (the
`let to = eInfo.src` of the DoubleSequencer wrapper is a different
function), so the lookup finds nothing. -/
def timingCallbackScopeTo : Option TimingObj :=
  none

/-- `SingleSequencer._onTimingCallback` as written, with the resolution of
the identifier `to` made explicit. Both branches of `if (eInfo.init)` read
`to` (`to.vector`, `to.clock.now()`), as does the following
`new MotionDelta(to.old_vector, new_vector)`, so an unbound `to` throws a
ReferenceError before any reconciliation; with a bound `to` the effective
vector and the motion delta are computed and the reconciliation remainder
`onTimingCallback` runs at the new position. -/
def onTimingCallbackRun (toRef : Option TimingObj) (axis : List Cue)
    (active : JsMap Cue) (eInfoInit : Bool) :
    Except JsError (JsMap Cue × List SeqEvent) :=
  match toRef with
  | none => Except.error JsError.referenceErrorTo
  | some tObj =>
    let new_vector :=
      if eInfoInit then calculateVector tObj.vector tObj.clockNow else tObj.vector
    let delta := motionDelta tObj.old_vector new_vector
    Except.ok (onTimingCallback axis active delta new_vector.position)

/-- Witness data: a cue with key `1` covering position `0`. -/
def cue1w : Cue :=
  { key := 1, interval := { low := -1, high := 1, lowInclude := true, highInclude := true },
    data := 0 }

/-- Witness data: a cue with key `2` not covering position `0`. -/
def cue2w : Cue :=
  { key := 2, interval := { low := 3, high := 4, lowInclude := true, highInclude := false },
    data := 0 }

/-- Modelled from the spec: the endpoint 4-tuple
`(value, right, closed, singular)` of endpoint.js (not under src/),
destructured by `_onScheduleCallback`. -/
structure EndpointRec : Type where
  value : ℚ
  right : Bool
  closed : Bool
  singular : Bool
deriving DecidableEq, Repr

/-- A due item delivered by the schedule: `{endpoint, cue, direction}`. -/
structure EndpointItem : Type where
  endpoint : EndpointRec
  cue : Cue
  direction : Int
deriving DecidableEq, Repr

/-- The body of the `forEach` loop of `SingleSequencer._onScheduleCallback`
for one due item: it returns the updated `activeCues` and the events pushed
for the item. A singular endpoint emits exit (and removes the cue) when
active, else enter immediately followed by exit without touching
`activeCues`; a non-singular endpoint computes
`enter = direction * (right ? -1 : 1) > 0` and adds/removes the cue
accordingly. -/
def onScheduleItem (active : JsMap Cue) (item : EndpointItem) :
    JsMap Cue × List SeqEvent :=
  if item.endpoint.singular then
    if hasKey active item.cue.key then
      (mapDelete active item.cue.key,
        [{ key := item.cue.key, new := none, old := some item.cue }])
    else
      (active,
        [{ key := item.cue.key, new := some item.cue, old := none },
         { key := item.cue.key, new := none, old := some item.cue }])
  else
    if item.direction * (if item.endpoint.right then -1 else 1) > 0 then
      if hasKey active item.cue.key then
        (active, [])
      else
        (mapSet active item.cue.key item.cue,
          [{ key := item.cue.key, new := some item.cue, old := none }])
    else
      if hasKey active item.cue.key then
        (mapDelete active item.cue.key,
          [{ key := item.cue.key, new := none, old := some item.cue }])
      else
        (active, [])

/-- `SingleSequencer._onScheduleCallback`: fold the per-item step over the
due batch, accumulating the emitted events in order. -/
def onScheduleCallback (active : JsMap Cue) (endpointItems : List EndpointItem) :
    JsMap Cue × List SeqEvent :=
  endpointItems.foldl
    (fun st item =>
      ((onScheduleItem st.1 item).1, st.2 ++ (onScheduleItem st.1 item).2))
    (active, [])

/-- C4 data: a singular cue with key `1` at position `5`. -/
def cuePw : Cue :=
  { key := 1, interval := { low := 5, high := 5, lowInclude := true, highInclude := true },
    data := 0 }

/-- C4 data: the due item for the singular endpoint of `cuePw`, crossed in
the forward direction. -/
def itemPw : EndpointItem :=
  { endpoint := { value := 5, right := false, closed := true, singular := true },
    cue := cuePw, direction := 1 }

/-- C5 witness data: a non-singular low endpoint of `cue1w`, crossed in the
forward direction, so that `enter` holds. -/
def itemLw : EndpointItem :=
  { endpoint := { value := -1, right := false, closed := true, singular := false },
    cue := cue1w, direction := 1 }

/-- The `is_active` flag of the classification loop: forced `false` when the
prior active map was empty. -/
def isActiveB (active : JsMap Cue) (first : Bool) (k : Nat) : Bool :=
  if first then false else hasKey active k

/-- The `should_be_active` flag: the item's `new` cue exists and its interval
covers the position. -/
def shouldB (position : ℚ) (item : EventItem) : Bool :=
  match item.new with
  | some c => covers c.interval position
  | none => false

/-- The loop of `SingleSequencer._get_events_from_axis_events`, carrying the
`exitEvents`, `changeEvents` and `enterEvents` accumulators. On an item whose
delta is fully `NOOP` the source executes `return` (not `continue`),
abandoning the whole function with `undefined`, modelled as `none`. -/
def geaeLoop (active : JsMap Cue) (first : Bool) (position : ℚ) :
    List EventItem → List SeqEvent → List SeqEvent → List SeqEvent →
    Option (List SeqEvent × List SeqEvent × List SeqEvent)
  | [], exitEvents, changeEvents, enterEvents =>
    some (exitEvents, changeEvents, enterEvents)
  | item :: rest, exitEvents, changeEvents, enterEvents =>
    if isNoop item.delta then
      none
    else
      let is_active := isActiveB active first item.key
      let should_be_active := shouldB position item
      if is_active && !should_be_active then
        geaeLoop active first position rest
          (exitEvents ++ [{ key := item.key, new := none, old := item.old }])
          changeEvents enterEvents
      else if !is_active && should_be_active then
        geaeLoop active first position rest exitEvents changeEvents
          (enterEvents ++ [{ key := item.key, new := item.new, old := none }])
      else if is_active && should_be_active then
        geaeLoop active first position rest exitEvents
          (changeEvents ++ [{ key := item.key, new := item.new, old := item.old }])
          enterEvents
      else
        geaeLoop active first position rest exitEvents changeEvents enterEvents

/-- `SingleSequencer._get_events_from_axis_events`: iterate the values of the
axis `eventMap` and classify each item against `activeCues` and the current
position; `none` models the `undefined` produced by the early `return`. -/
def get_events_from_axis_events (active : JsMap Cue) (eventMap : JsMap EventItem)
    (position : ℚ) : Option (List SeqEvent × List SeqEvent × List SeqEvent) :=
  geaeLoop active (decide (active.length = 0)) position
    (eventMap.map Prod.snd) [] [] []

/-- C3 failing-input data: an event item whose delta is `NOOP` in both
components. -/
def noopItemw : EventItem :=
  { key := 5, new := some cue2w, old := some cue2w,
    delta := { interval := DeltaKind.NOOP, data := DeltaKind.NOOP } }

/-- C3 failing-input data: an insertion item for the covering cue `cue1w`. -/
def insertItemw : EventItem :=
  { key := 1, new := some cue1w, old := none,
    delta := { interval := DeltaKind.INSERT, data := DeltaKind.INSERT } }

/-- The exit classification of one event item. -/
def fExit (active : JsMap Cue) (first : Bool) (position : ℚ) (item : EventItem) :
    Option SeqEvent :=
  if isActiveB active first item.key && !shouldB position item then
    some { key := item.key, new := none, old := item.old }
  else none

/-- The change classification of one event item. -/
def fChange (active : JsMap Cue) (first : Bool) (position : ℚ) (item : EventItem) :
    Option SeqEvent :=
  if isActiveB active first item.key && shouldB position item then
    some { key := item.key, new := item.new, old := item.old }
  else none

/-- The enter classification of one event item. -/
def fEnter (active : JsMap Cue) (first : Bool) (position : ℚ) (item : EventItem) :
    Option SeqEvent :=
  if !isActiveB active first item.key && shouldB position item then
    some { key := item.key, new := item.new, old := none }
  else none

/-- `SingleSequencer._get_events_from_axis_lookup`: recompute the active set
from a point lookup, then build change events from the intersection of the
old and new active maps (iterating the intersection under `approach1`, the
event map otherwise), exit events from `old \ new` and enter events from
`new \ old`; when the old active map is empty only enter events are built. -/
def get_events_from_axis_lookup (axis : List Cue) (active : JsMap Cue)
    (eventMap : JsMap EventItem) (position : ℚ) (approach1 : Bool) :
    List SeqEvent × List SeqEvent × List SeqEvent :=
  let activeCues := (axisLookupPoint axis position).map (fun c => (c.key, c))
  let first := decide (active.length = 0)
  let changeEvents :=
    if first then []
    else
      let remainCues := map_intersect active activeCues
      if approach1 then
        (remainCues.map Prod.snd).filterMap (fun cue =>
          match mapGet eventMap cue.key with
          | some item =>
            if isNoop item.delta then none
            else some { key := item.key, new := item.new, old := item.old }
          | none => none)
      else
        (eventMap.map Prod.snd).filterMap (fun item =>
          match mapGet remainCues item.key with
          | some _ =>
            if isNoop item.delta then none
            else some { key := item.key, new := item.new, old := item.old }
          | none => none)
  let exitEvents :=
    if first then []
    else
      (map_difference active activeCues).map
        (fun kc => { key := kc.2.key, new := none, old := some kc.2 })
  let enterCues := if first then activeCues else map_difference activeCues active
  (exitEvents, changeEvents,
    enterCues.map (fun kc => { key := kc.2.key, new := some kc.2, old := none }))

/-- Modelled from the spec: the current cue of the axis for a key (the Axis
holds a `map<K, Cue>`; axis.js is not under src/). -/
def axisFind (axis : List Cue) (k : Nat) : Option Cue :=
  axis.find? (fun c => c.key == k)

/-- The key list of an event list, compared set-wise by the source's
`eqSet` check. -/
def keysE (evs : List SeqEvent) : List Nat :=
  evs.map SeqEvent.key

/-- C9 counterexample data: a cue with key `3` whose interval does not cover
position `0`, used as the subject of a full-`NOOP` event item. -/
def cue3w : Cue :=
  { key := 3, interval := { low := 6, high := 8, lowInclude := true, highInclude := true },
    data := 0 }

/-- C9 counterexample data: a full-`NOOP` event item for key `3`. -/
def noop3w : EventItem :=
  { key := 3, new := some cue3w, old := some cue3w,
    delta := { interval := DeltaKind.NOOP, data := DeltaKind.NOOP } }

/-- The two timing objects of the `DoubleSequencer`. -/
inductive TimingSrc : Type
  | A : TimingSrc
  | B : TimingSrc
deriving DecidableEq, Repr

/-- An input event delivered to the `DoubleSequencer` on its single execution
context: a `change` event from one of the two timing objects, an axis batch
callback, or a schedule due-event callback. -/
inductive DSeqEvent : Type
  | timingUpdate : TimingSrc → DSeqEvent
  | axisUpdate : DSeqEvent
  | scheduleCallback : DSeqEvent
deriving DecidableEq, Repr

/-- The readiness state of a `DoubleSequencer`: the per-source flags
`_toA_ready` / `_toB_ready` and the latched `_ready` event boolean. -/
structure DSeqState : Type where
  toA_ready : Bool
  toB_ready : Bool
  ready : Bool
deriving DecidableEq, Repr

/-- The initial readiness state of the constructor:
`new eventify.EventBoolean(false)` and both flags `false`. -/
def dseqInit : DSeqState :=
  { toA_ready := false, toB_ready := false, ready := false }

/-- One step of the readiness logic. A timing `change` event runs the guarded
block of `_onTimingUpdateWrapper`: only while `!this._ready.value`, set the
flag of the source and latch `_ready.value = true` once both flags hold.
`_onAxisUpdate` and `_onScheduleCallback` never touch the readiness state. -/
def dseqStep (s : DSeqState) : DSeqEvent → DSeqState
  | DSeqEvent.timingUpdate src =>
    if !s.ready then
      let s1 :=
        match src with
        | TimingSrc.A => { s with toA_ready := true }
        | TimingSrc.B => { s with toB_ready := true }
      if s1.toA_ready && s1.toB_ready then { s1 with ready := true } else s1
    else s
  | DSeqEvent.axisUpdate => s
  | DSeqEvent.scheduleCallback => s

/-- A trace of input events, folded over the readiness step. -/
def dseqRun (s : DSeqState) (evs : List DSeqEvent) : DSeqState :=
  evs.foldl dseqStep s

/-- Whether a trace contains a `change` event from the given timing
object. -/
def hasTimingUpdate (src : TimingSrc) (evs : List DSeqEvent) : Bool :=
  evs.any (fun e => e == DSeqEvent.timingUpdate src)

/-! ## Theorems -/

/-- `has` as existence of an entry. -/
theorem hasKey_iff {V : Type} (m : JsMap V) (k : Nat) :
    hasKey m k = true ↔ ∃ v, (k, v) ∈ m := by
  simp only [hasKey, List.any_eq_true, beq_iff_eq]
  constructor
  · rintro ⟨⟨k', v⟩, hmem, hk⟩
    subst hk
    exact ⟨v, hmem⟩
  · rintro ⟨v, hmem⟩
    exact ⟨(k, v), hmem, rfl⟩

/-- Failure of `has` as absence of every entry. -/
theorem hasKey_eq_false_iff {V : Type} (m : JsMap V) (k : Nat) :
    hasKey m k = false ↔ ∀ v, (k, v) ∉ m := by
  rw [← Bool.not_eq_true, hasKey_iff]
  push_neg
  rfl

/-- Membership in `map_difference`: an entry of `a` whose key `b` lacks. -/
theorem mem_map_difference {V : Type} (a b : JsMap V) (k : Nat) (v : V) :
    (k, v) ∈ map_difference a b ↔ (k, v) ∈ a ∧ hasKey b k = false := by
  unfold map_difference
  by_cases ha : a.length = 0
  · simp [ha, List.length_eq_zero.mp ha]
  · by_cases hb : b.length = 0
    · simp [ha, hb, List.length_eq_zero.mp hb, hasKey]
    · simp [ha, hb, List.mem_filter]

/-- Membership in `map_intersect`: a key of both maps, bound as in the
smaller map (the first on equal sizes). -/
theorem mem_map_intersect {V : Type} (a b : JsMap V) (k : Nat) (v : V) :
    (k, v) ∈ map_intersect a b ↔
      hasKey a k = true ∧ hasKey b k = true ∧
        (k, v) ∈ (if a.length ≤ b.length then a else b) := by
  unfold map_intersect
  by_cases hle : a.length ≤ b.length
  · by_cases ha : a.length = 0
    · simp only [hle, if_true]
      simp [ha, List.length_eq_zero.mp ha]
    · simp only [hle, if_true, ha, if_false, List.mem_filter]
      constructor
      · rintro ⟨hmem, hb⟩
        exact ⟨(hasKey_iff a k).mpr ⟨v, hmem⟩, hb, hmem⟩
      · rintro ⟨_, hb, hmem⟩
        exact ⟨hmem, hb⟩
  · by_cases hb : b.length = 0
    · simp only [hle, if_false]
      simp [hb, List.length_eq_zero.mp hb]
    · simp only [hle, if_false, hb, List.mem_filter]
      constructor
      · rintro ⟨hmem, ha⟩
        exact ⟨ha, (hasKey_iff b k).mpr ⟨v, hmem⟩, hmem⟩
      · rintro ⟨ha, _, hmem⟩
        exact ⟨hmem, ha⟩

/-- `has` on `map_intersect` as a boolean conjunction. -/
theorem hasKey_map_intersect {V : Type} (a b : JsMap V) (k : Nat) :
    hasKey (map_intersect a b) k = (hasKey a k && hasKey b k) := by
  by_cases h : hasKey (map_intersect a b) k
  · obtain ⟨v, hv⟩ := (hasKey_iff _ _).mp h
    obtain ⟨ha, hb, _⟩ := (mem_map_intersect a b k v).mp hv
    simp [h, ha, hb]
  · rw [Bool.not_eq_true] at h
    rw [h]
    rcases hha : hasKey a k with _ | _
    · rfl
    rcases hhb : hasKey b k with _ | _
    · rfl
    exfalso
    obtain ⟨va, hva⟩ := (hasKey_iff a k).mp hha
    obtain ⟨vb, hvb⟩ := (hasKey_iff b k).mp hhb
    rw [hasKey_eq_false_iff] at h
    by_cases hle : a.length ≤ b.length
    · exact h va ((mem_map_intersect a b k va).mpr ⟨hha, hhb, by simp [hle, hva]⟩)
    · exact h vb ((mem_map_intersect a b k vb).mpr ⟨hha, hhb, by simp [hle, hvb]⟩)

/-- C10: `map_difference(a, b)` holds exactly the entries of `a` whose key is
absent from `b`, and `map_intersect(a, b)` holds exactly the keys present in
both maps, each bound to the value taken from the smaller of the two maps
(from `a` when the sizes are equal). -/
theorem C10_map_difference_intersect (a b : JsMap Int) (k : Nat) (v : Int) :
    ((k, v) ∈ map_difference a b ↔ (k, v) ∈ a ∧ hasKey b k = false) ∧
    ((k, v) ∈ map_intersect a b ↔
      hasKey a k = true ∧ hasKey b k = true ∧
        (k, v) ∈ (if a.length ≤ b.length then a else b)) :=
  ⟨mem_map_difference a b k v, mem_map_intersect a b k v⟩

/-- On a strictly sorted array, elements at smaller indices are smaller. -/
theorem sorted_getD_lt (arr : List JsNum) (hs : List.Chain' (· < ·) arr)
    {j k : Nat} (hjk : j < k) (hk : k < arr.length) :
    arr.getD j 0 < arr.getD k 0 := by
  rw [List.getD_eq_getElem arr 0 (lt_trans hjk hk), List.getD_eq_getElem arr 0 hk]
  exact List.pairwise_iff_getElem.mp (List.chain'_iff_pairwise.mp hs) j k
    (lt_trans hjk hk) hk hjk

/-- If a predicate holds exactly on the first `m` positions of a list, its
count is `m`. -/
theorem countP_eq_of_dichotomy (l : List JsNum) (p : JsNum → Bool) :
    ∀ (m : Nat), m ≤ l.length →
      (∀ j : Nat, j < l.length → (p (l.getD j 0) = true ↔ j < m)) →
      l.countP p = m := by
  induction l with
  | nil =>
    intro m hm _
    simp only [List.countP_nil, List.length_nil] at *
    omega
  | cons a t ih =>
    intro m hm h
    match m with
    | 0 =>
      have ha : p a = false := by
        have h0 := h 0 (Nat.succ_pos _)
        simp only [List.getD_cons_zero] at h0
        simpa using h0
      have ht : t.countP p = 0 := by
        apply ih 0 (Nat.zero_le _)
        intro j hj
        have hj1 := h (j + 1) (Nat.succ_lt_succ hj)
        simpa using hj1
      simp [List.countP_cons, ha, ht]
    | m + 1 =>
      have ha : p a = true := by
        have h0 := h 0 (Nat.succ_pos _)
        simp only [List.getD_cons_zero] at h0
        exact h0.mpr (Nat.succ_pos m)
      have ht : t.countP p = m := by
        apply ih m (Nat.succ_le_succ_iff.mp hm)
        intro j hj
        have hj1 := h (j + 1) (Nat.succ_lt_succ hj)
        simpa [Nat.succ_lt_succ_iff] using hj1
      simp [List.countP_cons, ha, ht]

/-- The search loop on a strictly sorted array not containing `x` returns
`-(m)` where `m` splits the array into the elements below and above `x`,
provided the bracketing invariants hold on entry. -/
theorem binaryIndexOfLoop_spec (arr : List JsNum) (x : JsNum)
    (hs : List.Chain' (· < ·) arr) (hx : x ∉ arr) :
    ∀ (n : Nat) (minIndex : Nat) (maxIndex : Int),
      (maxIndex + 1 - (minIndex : Int)).toNat ≤ n →
      maxIndex < (arr.length : Int) →
      (minIndex : Int) ≤ maxIndex + 1 →
      (∀ j : Nat, j < minIndex → j < arr.length → arr.getD j 0 < x) →
      (∀ j : Nat, maxIndex < (j : Int) → j < arr.length → x < arr.getD j 0) →
      ∃ m : Nat, binaryIndexOfLoop arr x minIndex maxIndex = -(m : Int) ∧
        m ≤ arr.length ∧
        ∀ j : Nat, j < arr.length → (arr.getD j 0 < x ↔ j < m) := by
  intro n
  induction n with
  | zero =>
    intro minIndex maxIndex hn hmax hmin h1 h2
    rw [binaryIndexOfLoop, dif_neg (by omega)]
    refine ⟨minIndex, by congr 1; omega, by omega, ?_⟩
    intro j hjlen
    constructor
    · intro hjx
      by_contra hge
      exact absurd hjx (not_lt.mpr (le_of_lt (h2 j (by omega) hjlen)))
    · intro hj
      exact h1 j hj hjlen
  | succ n ih =>
    intro minIndex maxIndex hn hmax hmin h1 h2
    rw [binaryIndexOfLoop]
    by_cases h : (minIndex : Int) ≤ maxIndex
    · rw [dif_pos h]
      have hmaxnn : 0 ≤ maxIndex := le_trans (Int.ofNat_nonneg minIndex) h
      have hcur_ge : minIndex ≤ (minIndex + maxIndex.toNat) / 2 := by omega
      have hcur_le : (((minIndex + maxIndex.toNat) / 2 : Nat) : Int) ≤ maxIndex := by omega
      have hcur_len : (minIndex + maxIndex.toNat) / 2 < arr.length := by omega
      by_cases hlt : arr.getD ((minIndex + maxIndex.toNat) / 2) 0 < x
      · rw [if_pos hlt]
        apply ih ((minIndex + maxIndex.toNat) / 2 + 1) maxIndex (by omega) hmax (by omega)
        · intro j hj hjlen
          rcases Nat.lt_or_ge j minIndex with hc | hc
          · exact h1 j hc hjlen
          · rcases Nat.lt_or_ge j ((minIndex + maxIndex.toNat) / 2) with hc2 | hc2
            · exact lt_trans (sorted_getD_lt arr hs hc2 hcur_len) hlt
            · have : j = (minIndex + maxIndex.toNat) / 2 := by omega
              rw [this]
              exact hlt
        · exact h2
      · rw [if_neg hlt]
        by_cases hgt : arr.getD ((minIndex + maxIndex.toNat) / 2) 0 > x
        · rw [if_pos hgt]
          apply ih minIndex (((minIndex + maxIndex.toNat) / 2 : Nat) - 1) (by omega)
            (by omega) (by omega) h1
          intro j hj hjlen
          rcases Nat.lt_or_ge ((minIndex + maxIndex.toNat) / 2) j with hc | hc
          · exact lt_trans hgt (sorted_getD_lt arr hs hc hjlen)
          · have : j = (minIndex + maxIndex.toNat) / 2 := by omega
            rw [this]
            exact hgt
        · exfalso
          have heq : arr.getD ((minIndex + maxIndex.toNat) / 2) 0 = x :=
            le_antisymm (not_lt.mp hgt) (not_lt.mp hlt)
          apply hx
          rw [← heq, List.getD_eq_getElem arr 0 hcur_len]
          exact List.getElem_mem hcur_len
    · rw [dif_neg h]
      refine ⟨minIndex, by congr 1; omega, by omega, ?_⟩
      intro j hjlen
      constructor
      · intro hjx
        by_contra hge
        exact absurd hjx (not_lt.mpr (le_of_lt (h2 j (by omega) hjlen)))
      · intro hj
        exact h1 j hj hjlen

/-- `binaryIndexOf` on a strictly sorted array not containing `x` returns the
negation of the insertion index, and `isFound` rejects the result. -/
theorem binaryIndexOf_absent (arr : List JsNum) (x : JsNum)
    (hs : List.Chain' (· < ·) arr) (hx : x ∉ arr) :
    binaryIndexOf arr x = -(insertionIdx arr x : Int) ∧
      isFound arr (binaryIndexOf arr x) x = false := by
  obtain ⟨m, hret, hm, hdich⟩ :=
    binaryIndexOfLoop_spec arr x hs hx arr.length 0 ((arr.length : Int) - 1)
      (by omega) (by omega) (by omega)
      (by intro j hj _; omega)
      (by intro j hj hjlen; omega)
  have hcount : insertionIdx arr x = m := by
    apply countP_eq_of_dichotomy arr _ m hm
    intro j hj
    simpa using hdich j hj
  have hval : binaryIndexOf arr x = -(insertionIdx arr x : Int) := by
    rw [binaryIndexOf, hret, hcount]
  refine ⟨hval, ?_⟩
  rw [hval, isFound]
  rw [if_neg (by omega), if_neg ?_]
  rintro ⟨-, hlen, heq0⟩
  apply hx
  rw [← heq0, List.getD_eq_getElem arr 0 hlen]
  exact List.getElem_mem hlen

/-- C6 counterexample: searching `20` in `[10]` would insert at index `1`,
whose bitwise complement is `-2`, but the source returns `~maxIndex = -1`. -/
theorem C6_counterexample :
    insertionIdx [(10 : JsNum)] 20 = 1 ∧
      binaryIndexOf [(10 : JsNum)] 20 ≠ -(1 + 1 : Int) := by
  have h := binaryIndexOf_absent [(10 : JsNum)] 20 (List.chain'_singleton _) (by decide)
  refine ⟨by decide, ?_⟩
  rw [h.1]
  decide

/-- C6 (amended): on a sorted array of unique elements, searching for an
absent `x` returns the arithmetic negation `-i` of the insertion index `i`
(equivalently the bitwise complement of `i - 1`), not `~i`; the returned
value is never classified as found by `isFound`, which resolves the
documented ambiguity of a returned index `0`. -/
theorem C6_binaryIndexOf_insertion (arr : List JsNum) (x : JsNum)
    (hs : List.Chain' (· < ·) arr) (hx : x ∉ arr) :
    binaryIndexOf arr x = -(insertionIdx arr x : Int) ∧
      isFound arr (binaryIndexOf arr x) x = false :=
  binaryIndexOf_absent arr x hs hx

/-- C6 witness: the amended statement evaluated on the sorted array `[3, 7]`
and the absent element `5`. -/
theorem C6_witness :
    binaryIndexOf [(3 : JsNum), 7] 5 = -(insertionIdx [(3 : JsNum), 7] 5 : Int) ∧
      isFound [(3 : JsNum), 7] (binaryIndexOf [(3 : JsNum), 7] 5) 5 = false :=
  C6_binaryIndexOf_insertion [(3 : JsNum), 7] 5
    (List.chain'_cons.mpr ⟨by decide, List.chain'_singleton _⟩) (by decide)

/-- C1 (code bug): inserting `5` into an empty index selects the sort
strategy, whose cleanup `splice(indexOf(Infinity), length)` runs with index
`-1` because no `Infinity` sentinel is present, deleting the array's last
element; the update therefore returns the empty array instead of `[5]`. -/
theorem C1_update_sort_drops_last : bsUpdate [] [] [(5 : JsNum)] = [] := by
  decide

/-- C8: `update([], [])` returns before touching the array (the batch size is
zero), so an empty update after `update(R, I)` leaves exactly the state
`update(R, I)` produced. -/
theorem C8_update_empty_batch (s R I : List JsNum) :
    bsUpdate (bsUpdate s R I) [] [] = bsUpdate s R I := by
  simp [bsUpdate]

/-- Membership in the key-indexed map built from a point lookup. -/
theorem mem_axisLookupPair (axis : List Cue) (pos : ℚ) (k : Nat) (c : Cue) :
    (k, c) ∈ (axisLookupPoint axis pos).map (fun c => (c.key, c)) ↔
      c ∈ axis ∧ c.key = k ∧ covers c.interval pos = true := by
  simp only [axisLookupPoint, List.mem_map, List.mem_filter, Prod.mk.injEq]
  constructor
  · rintro ⟨c2, ⟨hmem, hcov⟩, hkey, rfl⟩
    exact ⟨hmem, hkey, hcov⟩
  · rintro ⟨hmem, hkey, hcov⟩
    exact ⟨c, ⟨hmem, hcov⟩, hkey, rfl⟩

/-- A key is in the point-lookup map exactly when some axis cue with that key
covers the position. -/
theorem hasKey_axisLookupPair (axis : List Cue) (pos : ℚ) (k : Nat) :
    hasKey ((axisLookupPoint axis pos).map (fun c => (c.key, c))) k = true ↔
      ∃ c ∈ axis, c.key = k ∧ covers c.interval pos = true := by
  rw [hasKey_iff]
  constructor
  · rintro ⟨c, hc⟩
    obtain ⟨hmem, hkey, hcov⟩ := (mem_axisLookupPair axis pos k c).mp hc
    exact ⟨c, hmem, hkey, hcov⟩
  · rintro ⟨c, hmem, hkey, hcov⟩
    exact ⟨c, (mem_axisLookupPair axis pos k c).mpr ⟨hmem, hkey, hcov⟩⟩

/-- A key is missing from the point-lookup map exactly when no axis cue with
that key covers the position. -/
theorem hasKey_axisLookupPair_false (axis : List Cue) (pos : ℚ) (k : Nat) :
    hasKey ((axisLookupPoint axis pos).map (fun c => (c.key, c))) k = false ↔
      ∀ c ∈ axis, c.key = k → covers c.interval pos = false := by
  rw [← Bool.not_eq_true, hasKey_axisLookupPair]
  push_neg
  constructor
  · intro h c hmem hkey
    have := h c hmem hkey
    simp [this]
  · intro h c hmem hkey
    simp [h c hmem hkey]

/-- The unreachable reconciliation remainder behaves as the spec intends: on
a delta with `posDelta = CHANGE` or `moveDelta = STOP` it sets `activeCues`
to exactly the cues covering the new position, emits an exit
`{key, new: undefined, old: cue}` exactly for each previously active key no
longer covering, an enter `{key, new: cue, old: undefined}` exactly for each
newly covering key, and no change-class event (every event has `new` or
`old` undefined). This is the evidence that the spec describes the method's
intent and the bare `to` is a slip. -/
theorem onTimingCallback_reconcile_spec (axis : List Cue) (active : JsMap Cue)
    (delta : MotionDeltaRec) (pos : ℚ)
    (hcond : delta.posDelta = PosDelta.CHANGE ∨ delta.moveDelta = MoveDelta.STOP)
    (hwf : ∀ kc ∈ active, (kc.2 : Cue).key = kc.1) :
    (∀ (k : Nat) (c : Cue), (k, c) ∈ (onTimingCallback axis active delta pos).1 ↔
       (c ∈ axis ∧ c.key = k ∧ covers c.interval pos = true)) ∧
    (∀ (k : Nat) (c : Cue),
       ({ key := k, new := none, old := some c } : SeqEvent) ∈
           (onTimingCallback axis active delta pos).2 ↔
         ((k, c) ∈ active ∧ ∀ c2 ∈ axis, c2.key = k → covers c2.interval pos = false)) ∧
    (∀ (k : Nat) (c : Cue),
       ({ key := k, new := some c, old := none } : SeqEvent) ∈
           (onTimingCallback axis active delta pos).2 ↔
         (c ∈ axis ∧ c.key = k ∧ covers c.interval pos = true ∧ hasKey active k = false)) ∧
    (∀ e ∈ (onTimingCallback axis active delta pos).2, e.new = none ∨ e.old = none) := by
  have hunfold : onTimingCallback axis active delta pos =
      ((axisLookupPoint axis pos).map (fun c => (c.key, c)),
        (map_difference active ((axisLookupPoint axis pos).map (fun c => (c.key, c)))).map
          (fun kc => { key := kc.2.key, new := none, old := some kc.2 }) ++
        (map_difference ((axisLookupPoint axis pos).map (fun c => (c.key, c))) active).map
          (fun kc => { key := kc.2.key, new := some kc.2, old := none })) := by
    rw [onTimingCallback, if_pos hcond]
  refine ⟨?_, ?_, ?_, ?_⟩
  · intro k c
    rw [hunfold]
    exact mem_axisLookupPair axis pos k c
  · intro k c
    rw [hunfold]
    simp only [List.mem_append, List.mem_map]
    constructor
    · rintro (⟨⟨k2, c2⟩, hmem, heq⟩ | ⟨⟨k2, c2⟩, _, heq⟩)
      · simp only [SeqEvent.mk.injEq, Option.some.injEq] at heq
        obtain ⟨hkey, -, hval⟩ := heq
        rw [hval] at hmem hkey
        obtain ⟨hact, hnotin⟩ := (mem_map_difference _ _ _ _).mp hmem
        have hk2 : c.key = k2 := hwf (k2, c) hact
        have hkk : k2 = k := by rw [← hk2, hkey]
        rw [hkk] at hact hnotin
        exact ⟨hact, (hasKey_axisLookupPair_false axis pos k).mp hnotin⟩
      · simp only [SeqEvent.mk.injEq] at heq
        exact absurd heq.2.1 (by simp)
    · rintro ⟨hact, hnone⟩
      left
      refine ⟨(k, c), (mem_map_difference _ _ _ _).mpr ⟨hact, ?_⟩, ?_⟩
      · exact (hasKey_axisLookupPair_false axis pos k).mpr hnone
      · have : c.key = k := hwf (k, c) hact
        simp [this]
  · intro k c
    rw [hunfold]
    simp only [List.mem_append, List.mem_map]
    constructor
    · rintro (⟨⟨k2, c2⟩, _, heq⟩ | ⟨⟨k2, c2⟩, hmem, heq⟩)
      · simp only [SeqEvent.mk.injEq] at heq
        exact absurd heq.2.1 (by simp)
      · simp only [SeqEvent.mk.injEq, Option.some.injEq] at heq
        obtain ⟨hkey, hval, -⟩ := heq
        rw [hval] at hmem hkey
        obtain ⟨hlook, hnotact⟩ := (mem_map_difference _ _ _ _).mp hmem
        obtain ⟨hmem2, hk2, hcov⟩ := (mem_axisLookupPair axis pos k2 c).mp hlook
        have hkk : k2 = k := by rw [← hk2, hkey]
        rw [hkk] at hnotact
        exact ⟨hmem2, hkey, hcov, hnotact⟩
    · rintro ⟨hmem, hkey, hcov, hnotact⟩
      right
      refine ⟨(k, c), (mem_map_difference _ _ _ _).mpr
        ⟨(mem_axisLookupPair axis pos k c).mpr ⟨hmem, hkey, hcov⟩, hnotact⟩, ?_⟩
      simp [hkey]
  · intro e he
    rw [hunfold] at he
    simp only [List.mem_append, List.mem_map] at he
    rcases he with ⟨kc, -, heq⟩ | ⟨kc, -, heq⟩
    · left
      rw [← heq]
    · right
      rw [← heq]

/-- The reconciliation remainder evaluated concretely: a jump
(`posDelta = CHANGE`) with prior active cue `2` and axis cue `1` covering
the new position emits an exit for key `2` and an enter for key `1`. -/
theorem onTimingCallback_reconcile_example :
    ({ key := 2, new := none, old := some cue2w } : SeqEvent) ∈
        (onTimingCallback [cue1w] [(2, cue2w)]
          { posDelta := PosDelta.CHANGE, moveDelta := MoveDelta.NOOP } 0).2 ∧
    ({ key := 1, new := some cue1w, old := none } : SeqEvent) ∈
        (onTimingCallback [cue1w] [(2, cue2w)]
          { posDelta := PosDelta.CHANGE, moveDelta := MoveDelta.NOOP } 0).2 := by
  have h := onTimingCallback_reconcile_spec [cue1w] [(2, cue2w)]
    { posDelta := PosDelta.CHANGE, moveDelta := MoveDelta.NOOP } 0
    (Or.inl rfl) (by decide)
  constructor
  · exact (h.2.1 2 cue2w).mpr ⟨by decide, by decide⟩
  · exact (h.2.2.1 1 cue1w).mpr ⟨by decide, by decide, by decide, by decide⟩

/-- C2 (code bug): `_onTimingCallback` resolves its effective vector through
the identifier `to` (`to.vector`, `to.clock.now()`, `to.old_vector`), which
no enclosing scope binds; with the scope the source actually has, every
invocation - for every axis, prior `activeCues` and `eInfo.init` flag -
throws a ReferenceError before any motion delta is computed, so the claimed
active-set recomputation, event emission and `activeCues` update never
happen. -/
theorem C2_timing_callback_throws (axis : List Cue) (active : JsMap Cue)
    (eInfoInit : Bool) :
    onTimingCallbackRun timingCallbackScopeTo axis active eInfoInit =
      Except.error JsError.referenceErrorTo :=
  rfl

/-- C4 counterexample: when a singular due cue is currently active the source
deletes it from `activeCues` (emitting only an exit), so the active map after
the item differs from the map before it, contradicting the claimed "no net
change to activeCues" for the active case. -/
theorem C4_counterexample :
    (onScheduleCallback [(1, cuePw)] [itemPw]).1 = [] ∧
      (onScheduleCallback [(1, cuePw)] [itemPw]).2 =
        [{ key := 1, new := none, old := some cuePw }] ∧
      (onScheduleCallback [(1, cuePw)] [itemPw]).1 ≠ [(1, cuePw)] := by
  refine ⟨by decide, by decide, by decide⟩

/-- C4 (amended): for a singular due endpoint, if the cue is active the
sequencer emits a single exit event and removes the cue from `activeCues`;
if it is inactive it emits an enter immediately followed by an exit and
leaves `activeCues` unchanged. -/
theorem C4_singular_endpoint (active : JsMap Cue) (item : EndpointItem)
    (hsing : item.endpoint.singular = true) :
    (hasKey active item.cue.key = true →
      onScheduleItem active item =
        (mapDelete active item.cue.key,
          [{ key := item.cue.key, new := none, old := some item.cue }])) ∧
    (hasKey active item.cue.key = false →
      onScheduleItem active item =
        (active,
          [{ key := item.cue.key, new := some item.cue, old := none },
           { key := item.cue.key, new := none, old := some item.cue }])) := by
  constructor
  · intro hhas
    rw [onScheduleItem, if_pos hsing, if_pos hhas]
  · intro hhas
    rw [onScheduleItem, if_pos hsing, if_neg (by simp [hhas])]

/-- C4 witness: the amended statement evaluated on a singular item both for
an active and for an inactive prior state. -/
theorem C4_witness :
    onScheduleItem [(1, cuePw)] itemPw =
        (mapDelete [(1, cuePw)] cuePw.key,
          [{ key := cuePw.key, new := none, old := some cuePw }]) ∧
    onScheduleItem [] itemPw =
        ([], [{ key := cuePw.key, new := some cuePw, old := none },
              { key := cuePw.key, new := none, old := some cuePw }]) :=
  ⟨(C4_singular_endpoint [(1, cuePw)] itemPw (by decide)).1 (by decide),
   (C4_singular_endpoint [] itemPw (by decide)).2 (by decide)⟩

/-- C5: for a non-singular due endpoint the sequencer computes
`enter = direction * (right ? -1 : 1) > 0`; when `enter` holds and the cue
is inactive it is added to `activeCues` with an enter event, when `enter`
fails and the cue is active it is removed with an exit event, and otherwise
nothing is emitted and `activeCues` is unchanged. -/
theorem C5_nonsingular_endpoint (active : JsMap Cue) (item : EndpointItem)
    (hsing : item.endpoint.singular = false) :
    (item.direction * (if item.endpoint.right then -1 else 1) > 0 →
      hasKey active item.cue.key = false →
      onScheduleItem active item =
        (mapSet active item.cue.key item.cue,
          [{ key := item.cue.key, new := some item.cue, old := none }])) ∧
    (¬ (item.direction * (if item.endpoint.right then -1 else 1) > 0) →
      hasKey active item.cue.key = true →
      onScheduleItem active item =
        (mapDelete active item.cue.key,
          [{ key := item.cue.key, new := none, old := some item.cue }])) ∧
    ((item.direction * (if item.endpoint.right then -1 else 1) > 0 →
        hasKey active item.cue.key = true) →
      (¬ (item.direction * (if item.endpoint.right then -1 else 1) > 0) →
        hasKey active item.cue.key = false) →
      onScheduleItem active item = (active, [])) := by
  refine ⟨?_, ?_, ?_⟩
  · intro henter hhas
    rw [onScheduleItem, if_neg (by simp [hsing]), if_pos henter, if_neg (by simp [hhas])]
  · intro henter hhas
    rw [onScheduleItem, if_neg (by simp [hsing]), if_neg henter, if_pos hhas]
  · intro h1 h2
    by_cases henter : item.direction * (if item.endpoint.right then -1 else 1) > 0
    · rw [onScheduleItem, if_neg (by simp [hsing]), if_pos henter, if_pos (h1 henter)]
    · rw [onScheduleItem, if_neg (by simp [hsing]), if_neg henter,
        if_neg (by simp [h2 henter])]

/-- C5 witness: the enter case of the non-singular classification evaluated
on an inactive prior state. -/
theorem C5_witness :
    onScheduleItem [] itemLw =
      (mapSet [] cue1w.key cue1w,
        [{ key := cue1w.key, new := some cue1w, old := none }]) :=
  (C5_nonsingular_endpoint [] itemLw (by decide)).1 (by decide) (by decide)

/-- C3 (code bug): on an event map whose first item is a full `NOOP`, the
loop's `return` (instead of `continue`) abandons the function, so the
following insertion item - non-`NOOP` interval delta, covering the position,
not active - is never classified as an enter event; the function yields
`undefined` and the caller's destructuring of the result throws. -/
theorem C3_noop_item_aborts :
    get_events_from_axis_events [] [(5, noopItemw), (1, insertItemw)] 0 = none ∧
      get_events_from_axis_events [] [(1, insertItemw)] 0 =
        some ([], [], [{ key := 1, new := some cue1w, old := none }]) := by
  refine ⟨by decide, by decide⟩

/-- A successful `Map.get` exhibits an entry of the map. -/
theorem mapGet_eq_some_mem {V : Type} (m : JsMap V) (k : Nat) (v : V)
    (h : mapGet m k = some v) : (k, v) ∈ m := by
  rw [mapGet] at h
  rcases hfind : m.find? (fun kv => kv.1 == k) with _ | kv
  · rw [hfind] at h
    exact absurd h (by simp)
  · rw [hfind] at h
    simp only [Option.some.injEq] at h
    have hmem := List.mem_of_find?_eq_some hfind
    have hkey : kv.1 = k := by simpa using List.find?_some hfind
    have hpair : (k, v) = kv := by
      rcases kv with ⟨k2, v2⟩
      simp only [Prod.mk.injEq]
      exact ⟨hkey.symm, h.symm⟩
    rw [hpair]
    exact hmem

/-- `Map.get` succeeds exactly when the map has the key. -/
theorem mapGet_isSome_iff {V : Type} (m : JsMap V) (k : Nat) :
    (mapGet m k).isSome = true ↔ hasKey m k = true := by
  rcases hfind : m.find? (fun kv => kv.1 == k) with _ | kv
  · rw [mapGet, hfind]
    rw [List.find?_eq_none] at hfind
    simp only [Option.isSome_none]
    constructor
    · intro hcontra
      exact absurd hcontra (by simp)
    · intro h
      obtain ⟨v, hv⟩ := (hasKey_iff m k).mp h
      exact absurd (by simp : ((k, v).1 == k) = true) (hfind (k, v) hv)
  · rw [mapGet, hfind]
    simp only [Option.isSome_some, true_iff]
    have hmem := List.mem_of_find?_eq_some hfind
    have hkey : kv.1 = k := by simpa using List.find?_some hfind
    rw [hasKey_iff]
    exact ⟨kv.2, by rw [← hkey]; exact hmem⟩

/-- On a well-formed map (entries carry their own key), a value with a given
key exists among the values exactly when the map has the key. -/
theorem values_with_key_iff {V : Type} (m : JsMap V) (f : V → Nat)
    (hwf : ∀ kv ∈ m, f kv.2 = kv.1) (k : Nat) :
    (∃ v ∈ m.map Prod.snd, f v = k) ↔ hasKey m k = true := by
  rw [hasKey_iff]
  constructor
  · rintro ⟨v, hv, hkv⟩
    obtain ⟨⟨k2, v2⟩, hmem, hval⟩ := List.mem_map.mp hv
    have hk2 : f v2 = k2 := hwf (k2, v2) hmem
    have hval2 : v2 = v := hval
    rw [hval2] at hk2
    have hk : k2 = k := by rw [← hk2, hkv]
    rw [hval2, hk] at hmem
    exact ⟨v, hmem⟩
  · rintro ⟨v, hv⟩
    exact ⟨v, List.mem_map.mpr ⟨(k, v), hv, rfl⟩, hwf (k, v) hv⟩

/-- When an event item carries the axis's current cue for a key (and axis
keys are unique), `should_be_active` coincides with membership of the key in
the point-lookup map. -/
theorem shouldB_eq_hasKey_lookup (axis : List Cue) (pos : ℚ)
    (hndAx : (axis.map Cue.key).Nodup) (k : Nat) (item : EventItem)
    (hfind : axisFind axis k = item.new) :
    shouldB pos item =
      hasKey ((axisLookupPoint axis pos).map (fun c => (c.key, c))) k := by
  rcases hnew : item.new with _ | c
  · rw [hnew] at hfind
    simp only [shouldB, hnew]
    have hnone : ∀ c ∈ axis, c.key ≠ k := by
      intro c hc
      have := List.find?_eq_none.mp hfind c hc
      simpa using this
    rw [eq_comm, hasKey_axisLookupPair_false]
    intro c hc hck
    exact absurd hck (hnone c hc)
  · rw [hnew] at hfind
    have hmem : c ∈ axis := List.mem_of_find?_eq_some hfind
    have hkey : c.key = k := by simpa using List.find?_some hfind
    simp only [shouldB, hnew]
    by_cases hcov : covers c.interval pos = true
    · rw [hcov, eq_comm]
      exact (hasKey_axisLookupPair axis pos k).mpr ⟨c, hmem, hkey, hcov⟩
    · have hcov2 : covers c.interval pos = false := by simpa using hcov
      rw [hcov2, eq_comm, hasKey_axisLookupPair_false]
      intro c2 hc2 hck2
      have hcc : c2 = c := List.inj_on_of_nodup_map hndAx hc2 hmem (by rw [hck2, hkey])
      rw [hcc]
      exact hcov2

/-- Without fully-`NOOP` items the classification loop never aborts and
returns the three `filterMap`s of the per-item classifiers, appended to the
accumulators. -/
theorem geaeLoop_eq (active : JsMap Cue) (first : Bool) (position : ℚ) :
    ∀ (items : List EventItem), (∀ item ∈ items, isNoop item.delta = false) →
      ∀ ex ch en, geaeLoop active first position items ex ch en =
        some (ex ++ items.filterMap (fExit active first position),
              ch ++ items.filterMap (fChange active first position),
              en ++ items.filterMap (fEnter active first position)) := by
  intro items
  induction items with
  | nil =>
    intro _ ex ch en
    simp [geaeLoop]
  | cons item rest ih =>
    intro hnoop ex ch en
    have hn : isNoop item.delta = false := hnoop item (List.mem_cons_self _ _)
    have hrest : ∀ i ∈ rest, isNoop i.delta = false :=
      fun i hi => hnoop i (List.mem_cons_of_mem _ hi)
    rcases ha : isActiveB active first item.key with _ | _ <;>
      rcases hs : shouldB position item with _ | _ <;>
        simp [geaeLoop, hn, ha, hs, fExit, fChange, fEnter, ih hrest]

/-- `has` on `map_difference` as a boolean combination. -/
theorem hasKey_map_difference {V : Type} (a b : JsMap V) (k : Nat) :
    hasKey (map_difference a b) k = (hasKey a k && !(hasKey b k)) := by
  by_cases h : hasKey (map_difference a b) k
  · obtain ⟨v, hv⟩ := (hasKey_iff _ _).mp h
    obtain ⟨ha, hb⟩ := (mem_map_difference a b k v).mp hv
    simp [h, (hasKey_iff a k).mpr ⟨v, ha⟩, hb]
  · rw [Bool.not_eq_true] at h
    rw [h, eq_comm, Bool.and_eq_false_iff]
    rcases hha : hasKey a k with _ | _
    · exact Or.inl rfl
    · right
      rcases hhb : hasKey b k with _ | _
      · exfalso
        obtain ⟨va, hva⟩ := (hasKey_iff a k).mp hha
        rw [hasKey_eq_false_iff] at h
        exact h va ((mem_map_difference a b k va).mpr ⟨hva, hhb⟩)
      · simp

/-- `map_intersect` of two well-formed cue maps is well-formed. -/
theorem wf_map_intersect (a b : JsMap Cue)
    (hwa : ∀ kc ∈ a, (kc.2 : Cue).key = kc.1) (hwb : ∀ kc ∈ b, (kc.2 : Cue).key = kc.1) :
    ∀ kc ∈ map_intersect a b, (kc.2 : Cue).key = kc.1 := by
  rintro ⟨k, c⟩ hmem
  obtain ⟨-, -, hsm⟩ := (mem_map_intersect a b k c).mp hmem
  by_cases hle : a.length ≤ b.length
  · rw [if_pos hle] at hsm
    exact hwa (k, c) hsm
  · rw [if_neg hle] at hsm
    exact hwb (k, c) hsm

/-- On a well-formed map, a fetched value carries the key it was fetched
under. -/
theorem mapGet_wf {V : Type} (m : JsMap V) (f : V → Nat)
    (hwf : ∀ kv ∈ m, f kv.2 = kv.1) (k : Nat) (v : V) (h : mapGet m k = some v) :
    f v = k :=
  hwf (k, v) (mapGet_eq_some_mem m k v h)

/-- With `first` computed from the map's size, `is_active` is plain key
membership. -/
theorem isActiveB_decide (active : JsMap Cue) (k : Nat) :
    isActiveB active (decide (active.length = 0)) k = hasKey active k := by
  rw [isActiveB]
  by_cases hlen : active.length = 0
  · rw [if_pos (by simp [hlen]), List.length_eq_zero.mp hlen]
    rfl
  · rw [if_neg (by simp [hlen])]

/-- Key membership in a `filterMap` of guarded single-event classifiers. -/
theorem mem_keysE_filterMap (items : List EventItem) (g : EventItem → Option SeqEvent)
    (cond : EventItem → Bool) (mk : EventItem → SeqEvent)
    (hg : ∀ item, g item = if cond item then some (mk item) else none)
    (hmk : ∀ item, (mk item).key = item.key) (k : Nat) :
    k ∈ keysE (items.filterMap g) ↔
      ∃ item ∈ items, item.key = k ∧ cond item = true := by
  simp only [keysE, List.mem_map, List.mem_filterMap]
  constructor
  · rintro ⟨e, ⟨item, hitem, hge⟩, hek⟩
    rw [hg item] at hge
    by_cases hcond : cond item = true
    · rw [if_pos hcond] at hge
      refine ⟨item, hitem, ?_, hcond⟩
      rw [← hek, ← Option.some_inj.mp hge, hmk]
    · rw [if_neg (by simp [hcond])] at hge
      exact absurd hge (by simp)
  · rintro ⟨item, hitem, hik, hcond⟩
    exact ⟨mk item, ⟨item, hitem, by rw [hg item, if_pos hcond]⟩, by rw [hmk, hik]⟩

/-- On a well-formed event map, an item with a given key satisfying a
key-determined condition exists exactly when the map has the key and the
condition holds of it. -/
theorem exists_item_cond (eventMap : JsMap EventItem)
    (hwfE : ∀ ki ∈ eventMap, (ki.2 : EventItem).key = ki.1)
    (cond : EventItem → Bool) (P : Nat → Bool)
    (hP : ∀ ki ∈ eventMap, cond (ki.2 : EventItem) = P ki.1) (k : Nat) :
    (∃ item ∈ eventMap.map Prod.snd, item.key = k ∧ cond item = true) ↔
      (hasKey eventMap k = true ∧ P k = true) := by
  constructor
  · rintro ⟨item, hitem, hik, hcond⟩
    obtain ⟨⟨k2, item2⟩, hmem, hval⟩ := List.mem_map.mp hitem
    have hval2 : item2 = item := hval
    rw [hval2] at hmem
    have hk2 : item.key = k2 := hwfE (k2, item) hmem
    have hkk : k2 = k := by rw [← hk2, hik]
    rw [hkk] at hmem
    refine ⟨(hasKey_iff eventMap k).mpr ⟨item, hmem⟩, ?_⟩
    rw [← hP (k, item) hmem, hcond]
  · rintro ⟨hk, hp⟩
    obtain ⟨item, hmem⟩ := (hasKey_iff eventMap k).mp hk
    refine ⟨item, List.mem_map.mpr ⟨(k, item), hmem, rfl⟩, hwfE (k, item) hmem, ?_⟩
    rw [hP (k, item) hmem, hp]

/-- Key membership in the events mapped from a well-formed cue map. -/
theorem mem_keysE_map_pairs (m : JsMap Cue) (mk : Nat × Cue → SeqEvent)
    (hmk : ∀ kc : Nat × Cue, (mk kc).key = (kc.2 : Cue).key)
    (hwf : ∀ kc ∈ m, (kc.2 : Cue).key = kc.1) (k : Nat) :
    k ∈ keysE (m.map mk) ↔ hasKey m k = true := by
  simp only [keysE, List.map_map, List.mem_map, Function.comp]
  rw [hasKey_iff]
  constructor
  · rintro ⟨⟨k2, c2⟩, hmem, hek⟩
    rw [hmk (k2, c2)] at hek
    have hk2 : c2.key = k2 := hwf (k2, c2) hmem
    rw [hk2] at hek
    rw [← hek]
    exact ⟨c2, hmem⟩
  · rintro ⟨c, hmem⟩
    refine ⟨(k, c), hmem, ?_⟩
    rw [hmk (k, c), hwf (k, c) hmem]

/-- `Map.get`'s success, as a boolean, is `has`. -/
theorem mapGet_isSome_eq {V : Type} (m : JsMap V) (k : Nat) :
    (mapGet m k).isSome = hasKey m k := by
  have h := mapGet_isSome_iff m k
  rcases h1 : (mapGet m k).isSome with _ | _ <;>
    rcases h2 : hasKey m k with _ | _ <;> simp_all

/-- The point-lookup map is well-formed. -/
theorem wf_lookup_pairs (axis : List Cue) (pos : ℚ) :
    ∀ kc ∈ (axisLookupPoint axis pos).map (fun c => (c.key, c)),
      (kc.2 : Cue).key = kc.1 := by
  rintro ⟨k2, c2⟩ hmem
  exact ((mem_axisLookupPair axis pos k2 c2).mp hmem).2.1

/-- Exit keys of the lookup-driven strategies: previously active keys no
longer in the point-lookup map (for either approach). -/
theorem lookup_exit_keys (axis : List Cue) (active : JsMap Cue)
    (eventMap : JsMap EventItem) (pos : ℚ) (approach1 : Bool)
    (hwfA : ∀ kc ∈ active, (kc.2 : Cue).key = kc.1) (k : Nat) :
    k ∈ keysE (get_events_from_axis_lookup axis active eventMap pos approach1).1 ↔
      (hasKey active k = true ∧
       hasKey ((axisLookupPoint axis pos).map (fun c => (c.key, c))) k = false) := by
  simp only [get_events_from_axis_lookup]
  by_cases hfirst : active.length = 0
  · rw [List.length_eq_zero.mp hfirst]
    simp [keysE, hasKey]
  · simp only [hfirst, decide_False, Bool.false_eq_true, if_false]
    have hwfd : ∀ kc ∈ map_difference active
        ((axisLookupPoint axis pos).map (fun c => (c.key, c))),
        (kc.2 : Cue).key = kc.1 := by
      rintro ⟨k2, c2⟩ hmem
      exact hwfA (k2, c2) ((mem_map_difference _ _ _ _).mp hmem).1
    rw [mem_keysE_map_pairs
        (map_difference active ((axisLookupPoint axis pos).map (fun c => (c.key, c))))
        (fun kc => { key := kc.2.key, new := none, old := some kc.2 })
        (fun kc => rfl) hwfd k,
      hasKey_map_difference]
    simp

/-- Enter keys of the lookup-driven strategies: keys of the point-lookup map
not previously active (for either approach). -/
theorem lookup_enter_keys (axis : List Cue) (active : JsMap Cue)
    (eventMap : JsMap EventItem) (pos : ℚ) (approach1 : Bool)
    (hwfA : ∀ kc ∈ active, (kc.2 : Cue).key = kc.1) (k : Nat) :
    k ∈ keysE (get_events_from_axis_lookup axis active eventMap pos approach1).2.2 ↔
      (hasKey ((axisLookupPoint axis pos).map (fun c => (c.key, c))) k = true ∧
       hasKey active k = false) := by
  simp only [get_events_from_axis_lookup]
  by_cases hfirst : active.length = 0
  · rw [List.length_eq_zero.mp hfirst]
    simp only [List.length_nil, decide_True, if_true]
    rw [mem_keysE_map_pairs
        ((axisLookupPoint axis pos).map (fun c => (c.key, c)))
        (fun kc => { key := kc.2.key, new := some kc.2, old := none })
        (fun kc => rfl) (wf_lookup_pairs axis pos) k]
    simp [hasKey]
  · simp only [hfirst, decide_False, Bool.false_eq_true, if_false]
    have hwfd : ∀ kc ∈ map_difference
        ((axisLookupPoint axis pos).map (fun c => (c.key, c))) active,
        (kc.2 : Cue).key = kc.1 := by
      rintro ⟨k2, c2⟩ hmem
      exact wf_lookup_pairs axis pos (k2, c2) ((mem_map_difference _ _ _ _).mp hmem).1
    rw [mem_keysE_map_pairs
        (map_difference ((axisLookupPoint axis pos).map (fun c => (c.key, c))) active)
        (fun kc => { key := kc.2.key, new := some kc.2, old := none })
        (fun kc => rfl) hwfd k,
      hasKey_map_difference]
    simp

/-- Change keys of the lookup-driven strategies: keys in the event map that
are both previously active and in the point-lookup map (for either
approach), given no fully-`NOOP` items. -/
theorem lookup_change_keys (axis : List Cue) (active : JsMap Cue)
    (eventMap : JsMap EventItem) (pos : ℚ) (approach1 : Bool)
    (hwfA : ∀ kc ∈ active, (kc.2 : Cue).key = kc.1)
    (hwfE : ∀ ki ∈ eventMap, (ki.2 : EventItem).key = ki.1)
    (hnoop : ∀ ki ∈ eventMap, isNoop (ki.2 : EventItem).delta = false) (k : Nat) :
    k ∈ keysE (get_events_from_axis_lookup axis active eventMap pos approach1).2.1 ↔
      (hasKey eventMap k = true ∧ hasKey active k = true ∧
       hasKey ((axisLookupPoint axis pos).map (fun c => (c.key, c))) k = true) := by
  have hwfr : ∀ kc ∈ map_intersect active
      ((axisLookupPoint axis pos).map (fun c => (c.key, c))),
      (kc.2 : Cue).key = kc.1 :=
    wf_map_intersect _ _ hwfA (wf_lookup_pairs axis pos)
  simp only [get_events_from_axis_lookup]
  by_cases hfirst : active.length = 0
  · rw [List.length_eq_zero.mp hfirst]
    simp [keysE, hasKey]
  · simp only [hfirst, decide_False, if_neg, Bool.false_eq_true, not_false_eq_true]
    rcases approach1 with _ | _
    · simp only [Bool.false_eq_true, if_false]
      rw [mem_keysE_filterMap _ _
        (fun item => (mapGet (map_intersect active
          ((axisLookupPoint axis pos).map (fun c => (c.key, c)))) item.key).isSome &&
          !(isNoop item.delta))
        (fun item => { key := item.key, new := item.new, old := item.old }) ?hg
        (fun item => rfl) k]
      case hg =>
        intro item
        rcases h1 : mapGet (map_intersect active
            ((axisLookupPoint axis pos).map (fun c => (c.key, c)))) item.key with _ | c
        · simp [h1]
        · rcases h2 : isNoop item.delta with _ | _
          · simp [h1, h2]
          · simp [h1, h2]
      rw [exists_item_cond eventMap hwfE _
        (fun k2 => (mapGet (map_intersect active
          ((axisLookupPoint axis pos).map (fun c => (c.key, c)))) k2).isSome) ?hp k]
      case hp =>
        rintro ⟨k2, item⟩ hmem
        simp only
        rw [hwfE (k2, item) hmem, hnoop (k2, item) hmem]
        simp
      rw [mapGet_isSome_eq, hasKey_map_intersect]
      simp [and_assoc]
    · simp only [if_true]
      constructor
      · intro hk
        simp only [keysE, List.mem_map, List.mem_filterMap] at hk
        obtain ⟨e, ⟨cue, hcue, hge⟩, hek⟩ := hk
        rcases hget : mapGet eventMap cue.key with _ | item
        · rw [hget] at hge
          exact absurd hge (by simp)
        · rw [hget] at hge
          have hitem : (cue.key, item) ∈ eventMap := mapGet_eq_some_mem _ _ _ hget
          have hni : isNoop item.delta = false := hnoop (cue.key, item) hitem
          simp only [hni, Bool.false_eq_true, if_false, Option.some.injEq] at hge
          have hik : item.key = cue.key := hwfE (cue.key, item) hitem
          have hkk : cue.key = k := by rw [← hek, ← hge, hik]
          obtain ⟨⟨k2, cue2⟩, hmem, hval⟩ := hcue
          have hval2 : cue2 = cue := hval
          rw [hval2] at hmem
          have hk2 : cue.key = k2 := hwfr (k2, cue) hmem
          have hkk2 : k2 = k := by rw [← hk2, hkk]
          rw [hkk2] at hmem
          have hrem : hasKey (map_intersect active
              ((axisLookupPoint axis pos).map (fun c => (c.key, c)))) k = true :=
            (hasKey_iff _ _).mpr ⟨cue, hmem⟩
          rw [hasKey_map_intersect] at hrem
          simp only [Bool.and_eq_true] at hrem
          obtain ⟨hA, hL⟩ := hrem
          refine ⟨?_, hA, hL⟩
          rw [hkk] at hget
          exact (hasKey_iff _ _).mpr ⟨item, mapGet_eq_some_mem _ _ _ hget⟩
      · rintro ⟨hE, hA, hL⟩
        have hrem : hasKey (map_intersect active
            ((axisLookupPoint axis pos).map (fun c => (c.key, c)))) k = true := by
          rw [hasKey_map_intersect, hA, hL]
          rfl
        obtain ⟨cue, hmem⟩ := (hasKey_iff _ _).mp hrem
        have hck : cue.key = k := hwfr (k, cue) hmem
        have hsome : (mapGet eventMap k).isSome = true := by
          rw [mapGet_isSome_eq, hE]
        obtain ⟨item, hget⟩ := Option.isSome_iff_exists.mp hsome
        have hni : isNoop item.delta = false :=
          hnoop (k, item) (mapGet_eq_some_mem _ _ _ hget)
        have hik : item.key = k := mapGet_wf eventMap EventItem.key hwfE k item hget
        simp only [keysE, List.mem_map, List.mem_filterMap]
        refine ⟨{ key := item.key, new := item.new, old := item.old },
          ⟨cue, ⟨(k, cue), hmem, rfl⟩, ?_⟩, hik⟩
        rw [hck, hget]
        simp [hni]

/-- C9 counterexample: on a state consistent with the axis - axis
`[cue1w, cue3w]`, position `0` covered only by `cue1w`, empty prior active
map, event map holding a full-`NOOP` item for key `3` and an insertion item
for key `1` - the event-map-driven strategy aborts with `undefined` (the
`return`-instead-of-`continue` slip) and produces no key sets at all, while
both axis-lookup strategies produce the enter key set `{1}`; the conjuncts
also record, by evaluation, that the input satisfies the claim's
consistency preconditions. -/
theorem C9_counterexample :
    get_events_from_axis_events [] [(3, noop3w), (1, insertItemw)] 0 = none ∧
      keysE (get_events_from_axis_lookup [cue1w, cue3w] []
        [(3, noop3w), (1, insertItemw)] 0 true).2.2 = [1] ∧
      keysE (get_events_from_axis_lookup [cue1w, cue3w] []
        [(3, noop3w), (1, insertItemw)] 0 false).2.2 = [1] ∧
      (∀ ki ∈ ([(3, noop3w), (1, insertItemw)] : JsMap EventItem),
        (ki.2 : EventItem).key = ki.1) ∧
      (([cue1w, cue3w].map Cue.key).Nodup) ∧
      (∀ ki ∈ ([(3, noop3w), (1, insertItemw)] : JsMap EventItem),
        axisFind [cue1w, cue3w] ki.1 = (ki.2 : EventItem).new) ∧
      (∀ c ∈ axisLookupPoint [cue1w, cue3w] 0,
        hasKey ([(3, noop3w), (1, insertItemw)] : JsMap EventItem) c.key = true) := by
  refine ⟨by decide, by decide, by decide, by decide, by decide, by decide, by decide⟩

/-- C9 (amended): provided no event item has a fully-`NOOP` delta, and given
an `eventMap`, axis and `activeCues` that are mutually consistent (event
items carry the axis's current cue for their key, and every active or
covering key outside the event map is respectively still covering or already
active), the three reconciliation strategies - the event-map-driven
classification and the two axis-lookup-driven diffs - produce identical key
sets of exit, change and enter events. -/
theorem C9_strategies_equal_key_sets (axis : List Cue) (active : JsMap Cue)
    (eventMap : JsMap EventItem) (pos : ℚ)
    (hwfA : ∀ kc ∈ active, (kc.2 : Cue).key = kc.1)
    (hwfE : ∀ ki ∈ eventMap, (ki.2 : EventItem).key = ki.1)
    (hndAx : (axis.map Cue.key).Nodup)
    (hnoop : ∀ ki ∈ eventMap, isNoop (ki.2 : EventItem).delta = false)
    (hnew : ∀ ki ∈ eventMap, axisFind axis ki.1 = (ki.2 : EventItem).new)
    (hA2L : ∀ kc ∈ active, hasKey eventMap kc.1 = false →
        hasKey ((axisLookupPoint axis pos).map (fun c => (c.key, c))) kc.1 = true)
    (hL2A : ∀ c ∈ axisLookupPoint axis pos, hasKey eventMap c.key = false →
        hasKey active c.key = true) :
    ∃ r1, get_events_from_axis_events active eventMap pos = some r1 ∧
      ∀ k : Nat,
        (k ∈ keysE r1.1 ↔
          k ∈ keysE (get_events_from_axis_lookup axis active eventMap pos true).1) ∧
        (k ∈ keysE r1.1 ↔
          k ∈ keysE (get_events_from_axis_lookup axis active eventMap pos false).1) ∧
        (k ∈ keysE r1.2.1 ↔
          k ∈ keysE (get_events_from_axis_lookup axis active eventMap pos true).2.1) ∧
        (k ∈ keysE r1.2.1 ↔
          k ∈ keysE (get_events_from_axis_lookup axis active eventMap pos false).2.1) ∧
        (k ∈ keysE r1.2.2 ↔
          k ∈ keysE (get_events_from_axis_lookup axis active eventMap pos true).2.2) ∧
        (k ∈ keysE r1.2.2 ↔
          k ∈ keysE (get_events_from_axis_lookup axis active eventMap pos false).2.2) := by
  have hnoopV : ∀ item ∈ eventMap.map Prod.snd, isNoop item.delta = false := by
    intro item hitem
    obtain ⟨⟨k2, item2⟩, hmem, hval⟩ := List.mem_map.mp hitem
    have hval2 : item2 = item := hval
    rw [hval2] at hmem
    exact hnoop (k2, item) hmem
  have hloop := geaeLoop_eq active (decide (active.length = 0)) pos
    (eventMap.map Prod.snd) hnoopV [] [] []
  refine ⟨((eventMap.map Prod.snd).filterMap
      (fExit active (decide (active.length = 0)) pos),
    (eventMap.map Prod.snd).filterMap
      (fChange active (decide (active.length = 0)) pos),
    (eventMap.map Prod.snd).filterMap
      (fEnter active (decide (active.length = 0)) pos)), ?_, ?_⟩
  · rw [get_events_from_axis_events, hloop]
    simp
  · intro k
    have hexit1 : k ∈ keysE ((eventMap.map Prod.snd).filterMap
        (fExit active (decide (active.length = 0)) pos)) ↔
        (hasKey eventMap k = true ∧
          (hasKey active k &&
            !(hasKey ((axisLookupPoint axis pos).map (fun c => (c.key, c))) k)) = true) := by
      rw [mem_keysE_filterMap _ (fExit active (decide (active.length = 0)) pos)
        (fun item => isActiveB active (decide (active.length = 0)) item.key &&
          !(shouldB pos item))
        (fun item => { key := item.key, new := none, old := item.old })
        (fun item => rfl) (fun item => rfl) k]
      rw [exists_item_cond eventMap hwfE _
        (fun k2 => hasKey active k2 &&
          !(hasKey ((axisLookupPoint axis pos).map (fun c => (c.key, c))) k2)) ?hp k]
      case hp =>
        rintro ⟨k2, item⟩ hmem
        simp only
        rw [hwfE (k2, item) hmem, isActiveB_decide active k2,
          shouldB_eq_hasKey_lookup axis pos hndAx k2 item (hnew (k2, item) hmem)]
    have hchange1 : k ∈ keysE ((eventMap.map Prod.snd).filterMap
        (fChange active (decide (active.length = 0)) pos)) ↔
        (hasKey eventMap k = true ∧
          (hasKey active k &&
            hasKey ((axisLookupPoint axis pos).map (fun c => (c.key, c))) k) = true) := by
      rw [mem_keysE_filterMap _ (fChange active (decide (active.length = 0)) pos)
        (fun item => isActiveB active (decide (active.length = 0)) item.key &&
          shouldB pos item)
        (fun item => { key := item.key, new := item.new, old := item.old })
        (fun item => rfl) (fun item => rfl) k]
      rw [exists_item_cond eventMap hwfE _
        (fun k2 => hasKey active k2 &&
          hasKey ((axisLookupPoint axis pos).map (fun c => (c.key, c))) k2) ?hp k]
      case hp =>
        rintro ⟨k2, item⟩ hmem
        simp only
        rw [hwfE (k2, item) hmem, isActiveB_decide active k2,
          shouldB_eq_hasKey_lookup axis pos hndAx k2 item (hnew (k2, item) hmem)]
    have henter1 : k ∈ keysE ((eventMap.map Prod.snd).filterMap
        (fEnter active (decide (active.length = 0)) pos)) ↔
        (hasKey eventMap k = true ∧
          (!(hasKey active k) &&
            hasKey ((axisLookupPoint axis pos).map (fun c => (c.key, c))) k) = true) := by
      rw [mem_keysE_filterMap _ (fEnter active (decide (active.length = 0)) pos)
        (fun item => !(isActiveB active (decide (active.length = 0)) item.key) &&
          shouldB pos item)
        (fun item => { key := item.key, new := item.new, old := none })
        (fun item => rfl) (fun item => rfl) k]
      rw [exists_item_cond eventMap hwfE _
        (fun k2 => !(hasKey active k2) &&
          hasKey ((axisLookupPoint axis pos).map (fun c => (c.key, c))) k2) ?hp k]
      case hp =>
        rintro ⟨k2, item⟩ hmem
        simp only
        rw [hwfE (k2, item) hmem, isActiveB_decide active k2,
          shouldB_eq_hasKey_lookup axis pos hndAx k2 item (hnew (k2, item) hmem)]
    have hAnotE : hasKey active k = true → hasKey eventMap k = false →
        hasKey ((axisLookupPoint axis pos).map (fun c => (c.key, c))) k = true := by
      intro hA hE
      obtain ⟨c, hc⟩ := (hasKey_iff active k).mp hA
      exact hA2L (k, c) hc hE
    have hLnotE : hasKey ((axisLookupPoint axis pos).map (fun c => (c.key, c))) k = true →
        hasKey eventMap k = false → hasKey active k = true := by
      intro hL hE
      obtain ⟨c, hc⟩ := (hasKey_iff _ k).mp hL
      obtain ⟨hmem, hkey, hcov⟩ := (mem_axisLookupPair axis pos k c).mp hc
      have hcL : c ∈ axisLookupPoint axis pos := List.mem_filter.mpr ⟨hmem, hcov⟩
      have hres := hL2A c hcL (by rw [hkey]; exact hE)
      rw [hkey] at hres
      exact hres
    have hsx : (hasKey eventMap k = true ∧
        (hasKey active k &&
          !(hasKey ((axisLookupPoint axis pos).map (fun c => (c.key, c))) k)) = true) ↔
        (hasKey active k = true ∧
          hasKey ((axisLookupPoint axis pos).map (fun c => (c.key, c))) k = false) := by
      constructor
      · rintro ⟨-, h⟩
        simpa using h
      · rintro ⟨hA, hL⟩
        refine ⟨?_, by simp [hA, hL]⟩
        by_cases hE : hasKey eventMap k = true
        · exact hE
        · have hE2 : hasKey eventMap k = false := by simpa using hE
          exact absurd (hAnotE hA hE2) (by simp [hL])
    have hse : (hasKey eventMap k = true ∧
        (!(hasKey active k) &&
          hasKey ((axisLookupPoint axis pos).map (fun c => (c.key, c))) k) = true) ↔
        (hasKey ((axisLookupPoint axis pos).map (fun c => (c.key, c))) k = true ∧
          hasKey active k = false) := by
      constructor
      · rintro ⟨-, h⟩
        simp only [Bool.and_eq_true, Bool.not_eq_true'] at h
        exact ⟨h.2, h.1⟩
      · rintro ⟨hL, hA⟩
        refine ⟨?_, by simp [hA, hL]⟩
        by_cases hE : hasKey eventMap k = true
        · exact hE
        · have hE2 : hasKey eventMap k = false := by simpa using hE
          exact absurd (hLnotE hL hE2) (by simp [hA])
    have hsc : (hasKey eventMap k = true ∧
        (hasKey active k &&
          hasKey ((axisLookupPoint axis pos).map (fun c => (c.key, c))) k) = true) ↔
        (hasKey eventMap k = true ∧ hasKey active k = true ∧
          hasKey ((axisLookupPoint axis pos).map (fun c => (c.key, c))) k = true) := by
      simp [Bool.and_eq_true]
    refine ⟨?_, ?_, ?_, ?_, ?_, ?_⟩
    · rw [hexit1, lookup_exit_keys axis active eventMap pos true hwfA k]
      exact hsx
    · rw [hexit1, lookup_exit_keys axis active eventMap pos false hwfA k]
      exact hsx
    · rw [hchange1, lookup_change_keys axis active eventMap pos true hwfA hwfE hnoop k]
      exact hsc
    · rw [hchange1, lookup_change_keys axis active eventMap pos false hwfA hwfE hnoop k]
      exact hsc
    · rw [henter1, lookup_enter_keys axis active eventMap pos true hwfA k]
      exact hse
    · rw [henter1, lookup_enter_keys axis active eventMap pos false hwfA k]
      exact hse

/-- C9 witness: the amended equivalence applied to the concrete consistent
state with axis `[cue1w]`, empty prior active map and a single insertion
item for key `1` at position `0`. -/
theorem C9_witness :
    ∃ r1, get_events_from_axis_events [] [(1, insertItemw)] 0 = some r1 ∧
      ∀ k : Nat,
        (k ∈ keysE r1.1 ↔
          k ∈ keysE (get_events_from_axis_lookup [cue1w] [] [(1, insertItemw)] 0 true).1) ∧
        (k ∈ keysE r1.1 ↔
          k ∈ keysE (get_events_from_axis_lookup [cue1w] [] [(1, insertItemw)] 0 false).1) ∧
        (k ∈ keysE r1.2.1 ↔
          k ∈ keysE (get_events_from_axis_lookup [cue1w] [] [(1, insertItemw)] 0 true).2.1) ∧
        (k ∈ keysE r1.2.1 ↔
          k ∈ keysE (get_events_from_axis_lookup [cue1w] [] [(1, insertItemw)] 0 false).2.1) ∧
        (k ∈ keysE r1.2.2 ↔
          k ∈ keysE (get_events_from_axis_lookup [cue1w] [] [(1, insertItemw)] 0 true).2.2) ∧
        (k ∈ keysE r1.2.2 ↔
          k ∈ keysE (get_events_from_axis_lookup [cue1w] [] [(1, insertItemw)] 0 false).2.2) :=
  C9_strategies_equal_key_sets [cue1w] [] [(1, insertItemw)] 0
    (by decide) (by decide) (by decide) (by decide) (by decide)
    (by decide) (by decide)

/-- One readiness step preserves the shape `ready = toA_ready && toB_ready`
and accumulates the per-source flags. -/
theorem dseqStep_shape (sA sB : Bool) (e : DSeqEvent) :
    dseqStep { toA_ready := sA, toB_ready := sB, ready := sA && sB } e =
      { toA_ready := sA || (e == DSeqEvent.timingUpdate TimingSrc.A),
        toB_ready := sB || (e == DSeqEvent.timingUpdate TimingSrc.B),
        ready := (sA || (e == DSeqEvent.timingUpdate TimingSrc.A)) &&
          (sB || (e == DSeqEvent.timingUpdate TimingSrc.B)) } := by
  rcases e with src | _ | _
  · rcases src with _ | _ <;> rcases sA with _ | _ <;> rcases sB with _ | _ <;> decide
  · rcases sA with _ | _ <;> rcases sB with _ | _ <;> decide
  · rcases sA with _ | _ <;> rcases sB with _ | _ <;> decide

/-- The readiness state after a trace: each flag records whether its timing
object has delivered an event, and `ready` is their conjunction. -/
theorem dseqRun_inv (evs : List DSeqEvent) :
    ∀ (sA sB : Bool),
      dseqRun { toA_ready := sA, toB_ready := sB, ready := sA && sB } evs =
        { toA_ready := sA || hasTimingUpdate TimingSrc.A evs,
          toB_ready := sB || hasTimingUpdate TimingSrc.B evs,
          ready := (sA || hasTimingUpdate TimingSrc.A evs) &&
            (sB || hasTimingUpdate TimingSrc.B evs) } := by
  induction evs with
  | nil =>
    intro sA sB
    simp [dseqRun, hasTimingUpdate]
  | cons e rest ih =>
    intro sA sB
    rw [dseqRun, List.foldl_cons, ← dseqRun, dseqStep_shape, ih]
    simp only [hasTimingUpdate, List.any_cons]
    congr 1 <;> rw [Bool.or_assoc]
    rw [Bool.or_assoc]

/-- The boolean trace test agrees with list membership. -/
theorem hasTimingUpdate_iff_mem (src : TimingSrc) (evs : List DSeqEvent) :
    hasTimingUpdate src evs = true ↔ DSeqEvent.timingUpdate src ∈ evs := by
  simp only [hasTimingUpdate, List.any_eq_true, beq_iff_eq]
  constructor
  · rintro ⟨e, hmem, rfl⟩
    exact hmem
  · intro hmem
    exact ⟨DSeqEvent.timingUpdate src, hmem, rfl⟩

/-- C7: readiness of the `DoubleSequencer` is a latch. Starting from the
constructor state, after any trace of timing, axis and schedule events the
sequencer is ready exactly when both timing objects have delivered a change
event, and once ready it stays ready under any further events. -/
theorem C7_readiness_latch (evs more : List DSeqEvent) :
    ((dseqRun dseqInit evs).ready = true ↔
      (DSeqEvent.timingUpdate TimingSrc.A ∈ evs ∧
       DSeqEvent.timingUpdate TimingSrc.B ∈ evs)) ∧
    ((dseqRun dseqInit evs).ready = true →
      (dseqRun (dseqRun dseqInit evs) more).ready = true) := by
  have h1 := dseqRun_inv evs false false
  have hinit : dseqInit =
      { toA_ready := false, toB_ready := false, ready := false && false } := rfl
  constructor
  · rw [hinit, h1]
    simp only [Bool.false_or, Bool.and_eq_true]
    rw [hasTimingUpdate_iff_mem, hasTimingUpdate_iff_mem]
  · intro hready
    rw [hinit, h1] at hready ⊢
    simp only [Bool.false_or, Bool.and_eq_true] at hready
    have h2 := dseqRun_inv more (hasTimingUpdate TimingSrc.A evs)
      (hasTimingUpdate TimingSrc.B evs)
    simp only [Bool.false_or] at h2 ⊢
    rw [h2]
    simp [hready.1, hready.2]

/-- C7 witness: after a change event from each timing object the sequencer is
ready, and remains ready after a further axis update and schedule callback. -/
theorem C7_witness :
    (dseqRun dseqInit [DSeqEvent.timingUpdate TimingSrc.A,
      DSeqEvent.timingUpdate TimingSrc.B]).ready = true ∧
    (dseqRun (dseqRun dseqInit [DSeqEvent.timingUpdate TimingSrc.A,
      DSeqEvent.timingUpdate TimingSrc.B])
      [DSeqEvent.axisUpdate, DSeqEvent.scheduleCallback]).ready = true := by
  have h := C7_readiness_latch
    [DSeqEvent.timingUpdate TimingSrc.A, DSeqEvent.timingUpdate TimingSrc.B]
    [DSeqEvent.axisUpdate, DSeqEvent.scheduleCallback]
  have hr := h.1.mpr ⟨by decide, by decide⟩
  exact ⟨hr, h.2 hr⟩
